import Mathlib

/-!
Verification of the submission deduplication and batching engine of the
cci-custom-metrics-datadog repository.

The embedding models:
* `WorkflowCache` (src/services/WorkflowCache.ts): a durable ledger backed by a
  JSON file `{ sent: [...] }`.  The backing file is modelled by `FileState`:
  either a well-formed file holding the `sent` list, or a
  missing/unreadable/unparseable file (`corrupt`), which makes
  `readFileSync`/`JSON.parse` throw.
* `DatadogService.submitMetrics` (pairing-then-filtering batching variant,
  src/unnamed/part_000 lines 72-130): `submitMetrics` below.
* `DatadogService.submitMetrics` (positional-slice batching variant,
  src/unnamed/part_000 lines 343-385): `submitMetricsSlice` below.

Metric series entries are opaque to the coordinator (it only maps, slices and
filters them), so they are modelled by a type parameter `α`.  The remote
Transport (`this.metricsApi.submitMetrics`) is modelled by an oracle
`Nat → TransportOutcome` giving the outcome of the k-th Transport invocation
of the call.  Transport calls are recorded together with the workflow id of
each series entry so that specifications can speak about which identifiers a
payload carries; the actual wire payload is the first components
(`newWorkflowPairs.map (pair => pair.payload)` in the source).
-/

namespace CCIDatadog

/-- State of one workflow-cache JSON file.  `ok sent` is a readable file whose
parsed content is `{ sent: ... }`; `corrupt` is a missing, unreadable or
unparseable file, on which `readFileSync`/`JSON.parse` throw. -/
inductive FileState where
  | ok (sent : List String)
  | corrupt
deriving DecidableEq

/-- Order-preserving first-occurrence deduplication, mirroring the JavaScript
idiom `[...new Set(l)]` used in `WorkflowCache.markAsSent`: iteration order of
a `Set` is insertion order, so the first occurrence of each element is kept. -/
def dedupFirst : List String → List String
  | [] => []
  | x :: xs => x :: (dedupFirst xs).filter (fun y => y != x)

namespace WorkflowCache

/-- Reading and parsing the cache file: `JSON.parse(readFileSync(path))`.
Returns `none` when the read or the parse throws. -/
def readCache : FileState → Option (List String)
  | .ok sent => some sent
  | .corrupt => none

/-- WorkflowCache.hasBeenSent: parse the cache file and test
`data.sent.includes(workflowId)`; any read/parse error is caught and the
method returns `false` (fail-open). -/
def hasBeenSent (f : FileState) (workflowId : String) : Bool :=
  match readCache f with
  | some sent => sent.contains workflowId
  | none => false

/-- WorkflowCache.markAsSent: parse the cache file, compute
`[...new Set([...data.sent, ...workflowIds])]` and write it back; a read/parse
error is rethrown (`Except.error`), and nothing is written. -/
def markAsSent (f : FileState) (workflowIds : List String) :
    Except Unit FileState :=
  match readCache f with
  | some sent => .ok (.ok (dedupFirst (sent ++ workflowIds)))
  | none => .error ()

/-- WorkflowCache.filterNewWorkflows: `workflowIds.filter(id => !hasBeenSent(id))`. -/
def filterNewWorkflows (f : FileState) (workflowIds : List String) :
    List String :=
  workflowIds.filter (fun id => !hasBeenSent f id)

end WorkflowCache

/-- Outcome of one remote Transport invocation
(`this.metricsApi.submitMetrics`): success, rejection with an `Error`
carrying a message, or a thrown value that is not an `Error` instance. -/
inductive TransportOutcome where
  | ok
  | errKnown (msg : String)
  | errUnknown
deriving DecidableEq

/-- Errors propagated out of `submitMetrics`.  `pairingMismatch` is the
length-mismatch error thrown up front; `transportError` is a rethrown
Transport `Error`; `unknownTransportError` is the normalized
"Unknown error submitting metrics"; `cacheReadError` is the read/parse error
rethrown by `WorkflowCache.markAsSent` from inside the try block. -/
inductive SubmitError where
  | pairingMismatch (seriesLen idsLen : Nat)
  | transportError (msg : String)
  | unknownTransportError
  | cacheReadError
deriving DecidableEq

/-- Constructor options of `DatadogService`:
`{ dryRun ?? false, batchSize ?? 10 }`.  The source loop
`for (i = 0; i < paired.length; i += batchSize)` only terminates for a
positive `batchSize`; theorems about batching assume `1 ≤ batchSize`. -/
structure Config where
  dryRun : Bool
  batchSize : Nat
deriving DecidableEq

/-- Backing store of the two ledger namespaces.  The constructor picks the
file name as a function of the mode: `sent-workflows-dry-run[-test].json`
when `dryRun`, `sent-workflows[-test].json` otherwise — two distinct files,
modelled as the two fields. -/
structure Store where
  live : FileState
  dry : FileState
deriving DecidableEq

/-- File selected by the constructor for the given mode. -/
def Store.get (s : Store) (dryRun : Bool) : FileState :=
  if dryRun then s.dry else s.live

/-- Store with the file of the given mode replaced. -/
def Store.set (s : Store) (dryRun : Bool) (f : FileState) : Store :=
  if dryRun then { s with dry := f } else { s with live := f }

/-- Fueled chunking helper: `chunkFuel n fuel l` splits `l` into consecutive
windows of `n` elements (the fuel dominates the list length at every use). -/
def chunkFuel (n : Nat) : Nat → List β → List (List β)
  | 0, _ => []
  | _, [] => []
  | fuel + 1, x :: xs =>
    (x :: xs.take (n - 1)) :: chunkFuel n fuel (xs.drop (n - 1))

/-- Consecutive windows of at most `n` elements in input order, mirroring the
`paired.slice(i, i + batchSize)` stepping of the source loop (meaningful for
`1 ≤ n`; the source loop does not terminate for `batchSize = 0`). -/
def chunkList (n : Nat) (l : List β) : List (List β) :=
  chunkFuel n l.length l

/-- Observable trace of one `submitMetrics` run over the windows: the error
it ends with (if any), the Transport invocations in order (each recorded as
the sub-batch of (series, workflowId) pairs whose first components form the
wire payload), the audit-log payloads written by `logMetricPayload`, the
final state of the selected cache file, and how many cache-file reads and
writes were performed. -/
structure RunState (α : Type) where
  error : Option SubmitError
  calls : List (List (α × String))
  audits : List (List α)
  file : FileState
  reads : Nat
  writes : Nat
deriving DecidableEq

/-- Filter callback of step 4 of the pairing variant:
`pair => !this.workflowCache.hasBeenSent(pair.workflowId)`. -/
def undelivered (f : FileState) (p : α × String) : Bool :=
  !WorkflowCache.hasBeenSent f p.2

/-- The batch loop of the pairing variant of `DatadogService.submitMetrics`
(steps 3-5 of the source): for each window, filter the pairs whose id is not
in the cache (one cache read per pair), skip the window if none survive,
otherwise write the audit log and, in live mode, invoke the Transport
(`transport k` is the outcome of the k-th invocation) and on success mark the
surviving ids as sent; in dry-run mode skip the Transport and mark directly.
A thrown Transport error or a `markAsSent` read error aborts the loop. -/
def processWindows (cfg : Config) (transport : Nat → TransportOutcome) :
    Nat → List (List (α × String)) → FileState → RunState α
  | _, [], f => ⟨none, [], [], f, 0, 0⟩
  | k, w :: ws, f =>
    let newPairs := w.filter (undelivered f)
    if newPairs.isEmpty then
      let r := processWindows cfg transport k ws f
      { r with reads := w.length + r.reads }
    else
      let payload := newPairs.map Prod.fst
      if cfg.dryRun then
        match WorkflowCache.markAsSent f (newPairs.map Prod.snd) with
        | .ok f' =>
          let r := processWindows cfg transport k ws f'
          { r with audits := payload :: r.audits,
                   reads := w.length + 1 + r.reads, writes := 1 + r.writes }
        | .error _ =>
          ⟨some .cacheReadError, [], [payload], f, w.length + 1, 0⟩
      else
        match transport k with
        | .ok =>
          match WorkflowCache.markAsSent f (newPairs.map Prod.snd) with
          | .ok f' =>
            let r := processWindows cfg transport (k + 1) ws f'
            { r with calls := newPairs :: r.calls,
                     audits := payload :: r.audits,
                     reads := w.length + 1 + r.reads, writes := 1 + r.writes }
          | .error _ =>
            ⟨some .cacheReadError, [newPairs], [payload], f, w.length + 1, 0⟩
        | .errKnown msg =>
          ⟨some (.transportError msg), [newPairs], [payload], f, w.length, 0⟩
        | .errUnknown =>
          ⟨some .unknownTransportError, [newPairs], [payload], f, w.length, 0⟩

/-- Result of one `submitMetrics` call: the error (if any), the recorded
Transport invocations, audit payloads, the resulting two-namespace store and
the cache read/write counts. -/
structure SubmitResult (α : Type) where
  error : Option SubmitError
  calls : List (List (α × String))
  audits : List (List α)
  store : Store
  reads : Nat
  writes : Nat
deriving DecidableEq

/-- Pairing variant of `DatadogService.submitMetrics`: validate that
`payload.series` and `workflowIds` have equal length (throwing the mismatch
error before touching the cache, the audit log or the Transport), pair them
index-wise, window the paired list by `batchSize` and run the batch loop on
the cache file selected by the mode. -/
def submitMetrics (cfg : Config) (transport : Nat → TransportOutcome)
    (store : Store) (series : List α) (workflowIds : List String) :
    SubmitResult α :=
  if series.length ≠ workflowIds.length then
    ⟨some (.pairingMismatch series.length workflowIds.length),
      [], [], store, 0, 0⟩
  else
    let paired := series.zip workflowIds
    let r := processWindows cfg transport 0
      (chunkList cfg.batchSize paired) (store.get cfg.dryRun)
    ⟨r.error, r.calls, r.audits, store.set cfg.dryRun r.file,
      r.reads, r.writes⟩

/-- Result of one `submitMetricsSlice` call; Transport payloads are recorded
as the series lists actually sent. -/
structure SliceResult (α : Type) where
  error : Option SubmitError
  calls : List (List α)
  audits : List (List α)
  store : Store
deriving DecidableEq

/-- The batch loop of the positional-slice variant: it walks the windows of
the pre-filtered id list while slicing the original `payload.series` at the
same positions (`payload.series.slice(i, i + batchSize)`), and marks the
window's ids as sent in both modes ("regardless of dry run" in the source). -/
def processSlices (cfg : Config) (transport : Nat → TransportOutcome) :
    Nat → List (List String) → List α → FileState →
      Option SubmitError × List (List α) × List (List α) × FileState
  | _, [], _, f => (none, [], [], f)
  | k, wchunk :: wrest, ser, f =>
    let payload := ser.take cfg.batchSize
    if cfg.dryRun then
      match WorkflowCache.markAsSent f wchunk with
      | .ok f' =>
        let r := processSlices cfg transport k wrest
          (ser.drop cfg.batchSize) f'
        (r.1, r.2.1, payload :: r.2.2.1, r.2.2.2)
      | .error _ => (some .cacheReadError, [], [payload], f)
    else
      match transport k with
      | .ok =>
        match WorkflowCache.markAsSent f wchunk with
        | .ok f' =>
          let r := processSlices cfg transport (k + 1) wrest
            (ser.drop cfg.batchSize) f'
          (r.1, payload :: r.2.1, payload :: r.2.2.1, r.2.2.2)
        | .error _ => (some .cacheReadError, [payload], [payload], f)
      | .errKnown msg => (some (.transportError msg), [payload], [payload], f)
      | .errUnknown => (some .unknownTransportError, [payload], [payload], f)

/-- Positional-slice variant of `DatadogService.submitMetrics` (the second
batching strategy present in the source): filter the whole id list against
the cache first, return silently if nothing is new, then process windows of
the filtered id list while slicing the original series list by position. -/
def submitMetricsSlice (cfg : Config) (transport : Nat → TransportOutcome)
    (store : Store) (series : List α) (workflowIds : List String) :
    SliceResult α :=
  let f0 := store.get cfg.dryRun
  let newWorkflows := WorkflowCache.filterNewWorkflows f0 workflowIds
  if newWorkflows.isEmpty then ⟨none, [], [], store⟩
  else
    let r := processSlices cfg transport 0
      (chunkList cfg.batchSize newWorkflows) series f0
    ⟨r.1, r.2.1, r.2.2.1, store.set cfg.dryRun r.2.2.2⟩

/-- Sequential application of `WorkflowCache.markAsSent` batches to a cache
file, used to state which identifiers have been recorded via `markAsSent`
over the life of the backing store. -/
def applyMarks : List (List String) → FileState → FileState
  | [], f => f
  | b :: bs, f =>
    match WorkflowCache.markAsSent f b with
    | .ok f' => applyMarks bs f'
    | .error _ => f

/-- Per-window filtering step of the pairing variant, as a partial map:
`none` when every pair of the window is already recorded (the window is
skipped), otherwise the surviving sub-batch. -/
def winnow (f : FileState) (w : List (α × String)) :
    Option (List (α × String)) :=
  let nw := w.filter (undelivered f)
  if nw.isEmpty then none else some nw

theorem mem_dedupFirst {a : String} {l : List String} :
    a ∈ dedupFirst l ↔ a ∈ l := by
  induction l with
  | nil => simp [dedupFirst]
  | cons x xs ih =>
    by_cases hax : a = x
    · subst hax; simp [dedupFirst]
    · simp [dedupFirst, List.mem_filter, hax, ih, bne_iff_ne]

theorem nodup_dedupFirst (l : List String) : (dedupFirst l).Nodup := by
  induction l with
  | nil => simp [dedupFirst]
  | cons x xs ih =>
    refine List.Nodup.cons ?_ (List.Nodup.filter _ ih)
    intro hx
    have := (List.mem_filter.mp hx).2
    simp [bne_iff_ne] at this

theorem filter_dedupFirst (p : String → Bool) (l : List String) :
    (dedupFirst l).filter p = dedupFirst (l.filter p) := by
  induction l with
  | nil => simp [dedupFirst]
  | cons x xs ih =>
    by_cases hp : p x = true
    · have l1 : List.filter p (dedupFirst (x :: xs)) =
          x :: List.filter p
            (List.filter (fun y => y != x) (dedupFirst xs)) := by
        simp [dedupFirst, List.filter_cons, hp]
      have l2 : dedupFirst (List.filter p (x :: xs)) =
          x :: List.filter (fun y => y != x)
            (dedupFirst (List.filter p xs)) := by
        simp [List.filter_cons, hp, dedupFirst]
      rw [l1, l2, List.filter_comm, ih]
    · have hp' : p x = false := by simpa using hp
      have l1 : List.filter p (dedupFirst (x :: xs)) =
          List.filter p
            (List.filter (fun y => y != x) (dedupFirst xs)) := by
        simp [dedupFirst, List.filter_cons, hp']
      have l2 : dedupFirst (List.filter p (x :: xs)) =
          dedupFirst (List.filter p xs) := by
        simp [List.filter_cons, hp']
      rw [l1, l2, ← ih, List.filter_filter]
      refine List.filter_congr ?_
      intro a _
      by_cases hax : a = x
      · subst hax; simp [hp']
      · simp [bne_iff_ne, hax]

theorem dedupFirst_eq_self {l : List String} (h : l.Nodup) :
    dedupFirst l = l := by
  induction l with
  | nil => rfl
  | cons x xs ih =>
    have hx : x ∉ xs := (List.nodup_cons.mp h).1
    rw [dedupFirst, ih (List.nodup_cons.mp h).2]
    congr 1
    refine List.filter_eq_self.mpr ?_
    intro a ha
    simp only [bne_iff_ne, ne_eq, decide_eq_true_eq]
    intro hax
    exact hx (hax ▸ ha)

theorem dedupFirst_append_of_subset {s L : List String} (hs : s.Nodup)
    (hL : ∀ x ∈ L, x ∈ s) : dedupFirst (s ++ L) = s := by
  induction s generalizing L with
  | nil =>
    have : L = [] := List.eq_nil_iff_forall_not_mem.mpr (fun a ha => by
      simpa using hL a ha)
    simp [this, dedupFirst]
  | cons a s' ih =>
    have ha : a ∉ s' := (List.nodup_cons.mp hs).1
    have hs' : s'.Nodup := (List.nodup_cons.mp hs).2
    have l0 : dedupFirst ((a :: s') ++ L) =
        a :: List.filter (fun y => y != a) (dedupFirst (s' ++ L)) := rfl
    rw [l0, filter_dedupFirst, List.filter_append]
    have h1 : s'.filter (fun y => y != a) = s' := by
      refine List.filter_eq_self.mpr ?_
      intro b hb
      simp only [bne_iff_ne, ne_eq, decide_eq_true_eq]
      intro hba
      exact ha (hba ▸ hb)
    rw [h1, ih hs']
    intro x hx
    rcases List.mem_filter.mp hx with ⟨hxL, hxa⟩
    rcases List.mem_cons.mp (hL x hxL) with h | h
    · exact absurd h (by simpa [bne_iff_ne] using hxa)
    · exact h

namespace WorkflowCache

theorem hasBeenSent_ok {s : List String} {x : String} :
    hasBeenSent (.ok s) x = true ↔ x ∈ s := by
  simp [hasBeenSent, readCache]

theorem hasBeenSent_corrupt (x : String) :
    hasBeenSent .corrupt x = false := rfl

theorem markAsSent_ok (s L : List String) :
    markAsSent (.ok s) L = .ok (.ok (dedupFirst (s ++ L))) := rfl

theorem markAsSent_corrupt (L : List String) :
    markAsSent .corrupt L = .error () := rfl

theorem markAsSent_mem {f f' : FileState} {L : List String}
    (h : markAsSent f L = .ok f') (x : String) :
    hasBeenSent f' x = true ↔ hasBeenSent f x = true ∨ x ∈ L := by
  cases f with
  | corrupt => simp [markAsSent, readCache] at h
  | ok s =>
    rw [markAsSent_ok] at h
    cases h
    rw [hasBeenSent_ok, hasBeenSent_ok, mem_dedupFirst, List.mem_append]

theorem markAsSent_mono {f f' : FileState} {L : List String}
    (h : markAsSent f L = .ok f') {x : String}
    (hx : hasBeenSent f x = true) : hasBeenSent f' x = true :=
  (markAsSent_mem h x).mpr (Or.inl hx)

end WorkflowCache

theorem chunkFuel_fuel_irrel (n : Nat) :
    ∀ f1 f2 (l : List β), l.length ≤ f1 → l.length ≤ f2 →
      chunkFuel n f1 l = chunkFuel n f2 l := by
  intro f1
  induction f1 with
  | zero =>
    intro f2 l h1 _
    have : l = [] := List.eq_nil_of_length_eq_zero (Nat.le_zero.mp h1)
    subst this
    cases f2 <;> rfl
  | succ g ih =>
    intro f2 l h1 h2
    cases l with
    | nil => cases f2 <;> rfl
    | cons x xs =>
      cases f2 with
      | zero => simp at h2
      | succ h =>
        simp only [chunkFuel]
        congr 1
        refine ih h (xs.drop (n - 1)) ?_ ?_ <;>
          · rw [List.length_drop]
            simp at h1 h2
            omega

theorem chunkList_nil (n : Nat) : chunkList n ([] : List β) = [] := rfl

theorem chunkList_cons (n : Nat) (x : β) (xs : List β) :
    chunkList n (x :: xs) =
      (x :: xs.take (n - 1)) :: chunkList n (xs.drop (n - 1)) := by
  simp only [chunkList, List.length_cons, chunkFuel]
  congr 1
  refine chunkFuel_fuel_irrel n xs.length _ _ ?_ le_rfl
  rw [List.length_drop]
  omega

theorem chunkList_cons_of_pos {n : Nat} (hn : 1 ≤ n) (x : β) (xs : List β) :
    chunkList n (x :: xs) =
      (x :: xs).take n :: chunkList n ((x :: xs).drop n) := by
  rw [chunkList_cons]
  have ht : (x :: xs).take n = x :: xs.take (n - 1) := by
    cases n with
    | zero => omega
    | succ m => simp
  have hd : (x :: xs).drop n = xs.drop (n - 1) := by
    cases n with
    | zero => omega
    | succ m => simp
  rw [ht, hd]

theorem flatten_chunkList (n : Nat) (l : List β) :
    (chunkList n l).flatten = l :=
  match l with
  | [] => rfl
  | x :: xs => by
    rw [chunkList_cons, List.flatten_cons,
      flatten_chunkList n (xs.drop (n - 1))]
    simp [List.take_append_drop]
termination_by l.length
decreasing_by simp [List.length_drop]; omega

theorem Store.get_set (s : Store) (d : Bool) (f : FileState) :
    (s.set d f).get d = f := by
  cases d <;> simp [Store.get, Store.set]

theorem Store.set_true_live (s : Store) (f : FileState) :
    (s.set true f).live = s.live := rfl

theorem Store.set_false_dry (s : Store) (f : FileState) :
    (s.set false f).dry = s.dry := rfl

theorem Store.set_true_dry (s : Store) (f : FileState) :
    (s.set true f).dry = f := rfl

theorem Store.set_false_live (s : Store) (f : FileState) :
    (s.set false f).live = f := rfl

theorem ne_nil_of_mem_chunkList {n : Nat} {w : List β} :
    ∀ {l : List β}, w ∈ chunkList n l → w ≠ [] :=
  fun {l} => match l with
  | [] => by simp [chunkList_nil]
  | x :: xs => by
    intro h
    rw [chunkList_cons] at h
    rcases List.mem_cons.mp h with h | h
    · subst h; simp
    · exact ne_nil_of_mem_chunkList (l := xs.drop (n - 1)) h
termination_by l => l.length
decreasing_by simp [List.length_drop]; omega

section ProcessWindowsBranches

variable {α : Type} (cfg : Config) (t : Nat → TransportOutcome) (k : Nat)
variable (w : List (α × String)) (ws : List (List (α × String)))
variable (f f' : FileState)

theorem pw_nil : processWindows cfg t k ([] : List (List (α × String))) f =
    ⟨none, [], [], f, 0, 0⟩ := rfl

theorem pw_skip (h : w.filter (undelivered f) = []) :
    processWindows cfg t k (w :: ws) f =
      { processWindows cfg t k ws f with
        reads := w.length + (processWindows cfg t k ws f).reads } := by
  simp [processWindows, h]

theorem pw_dry_ok (hne : w.filter (undelivered f) ≠ [])
    (hdry : cfg.dryRun = true)
    (hmark : WorkflowCache.markAsSent f
      ((w.filter (undelivered f)).map Prod.snd) = .ok f') :
    processWindows cfg t k (w :: ws) f =
      { processWindows cfg t k ws f' with
        audits := (w.filter (undelivered f)).map Prod.fst ::
          (processWindows cfg t k ws f').audits,
        reads := w.length + 1 + (processWindows cfg t k ws f').reads,
        writes := 1 + (processWindows cfg t k ws f').writes } := by
  simp [processWindows, hdry, hmark, List.isEmpty_iff, hne]

theorem pw_dry_err (hne : w.filter (undelivered f) ≠ [])
    (hdry : cfg.dryRun = true)
    (hmark : WorkflowCache.markAsSent f
      ((w.filter (undelivered f)).map Prod.snd) = .error ()) :
    processWindows cfg t k (w :: ws) f =
      ⟨some .cacheReadError, [],
        [(w.filter (undelivered f)).map Prod.fst], f, w.length + 1, 0⟩ := by
  simp [processWindows, hdry, hmark, List.isEmpty_iff, hne]

theorem pw_live_ok (hne : w.filter (undelivered f) ≠ [])
    (hdry : cfg.dryRun = false) (ht : t k = .ok)
    (hmark : WorkflowCache.markAsSent f
      ((w.filter (undelivered f)).map Prod.snd) = .ok f') :
    processWindows cfg t k (w :: ws) f =
      { processWindows cfg t (k + 1) ws f' with
        calls := w.filter (undelivered f) ::
          (processWindows cfg t (k + 1) ws f').calls,
        audits := (w.filter (undelivered f)).map Prod.fst ::
          (processWindows cfg t (k + 1) ws f').audits,
        reads := w.length + 1 + (processWindows cfg t (k + 1) ws f').reads,
        writes := 1 + (processWindows cfg t (k + 1) ws f').writes } := by
  simp [processWindows, hdry, ht, hmark, List.isEmpty_iff, hne]

theorem pw_live_markErr (hne : w.filter (undelivered f) ≠ [])
    (hdry : cfg.dryRun = false) (ht : t k = .ok)
    (hmark : WorkflowCache.markAsSent f
      ((w.filter (undelivered f)).map Prod.snd) = .error ()) :
    processWindows cfg t k (w :: ws) f =
      ⟨some .cacheReadError, [w.filter (undelivered f)],
        [(w.filter (undelivered f)).map Prod.fst], f, w.length + 1, 0⟩ := by
  simp [processWindows, hdry, ht, hmark, List.isEmpty_iff, hne]

theorem pw_live_errKnown {msg : String}
    (hne : w.filter (undelivered f) ≠ [])
    (hdry : cfg.dryRun = false) (ht : t k = .errKnown msg) :
    processWindows cfg t k (w :: ws) f =
      ⟨some (.transportError msg), [w.filter (undelivered f)],
        [(w.filter (undelivered f)).map Prod.fst], f, w.length, 0⟩ := by
  simp [processWindows, hdry, ht, List.isEmpty_iff, hne]

theorem pw_live_errUnknown (hne : w.filter (undelivered f) ≠ [])
    (hdry : cfg.dryRun = false) (ht : t k = .errUnknown) :
    processWindows cfg t k (w :: ws) f =
      ⟨some .unknownTransportError, [w.filter (undelivered f)],
        [(w.filter (undelivered f)).map Prod.fst], f, w.length, 0⟩ := by
  simp [processWindows, hdry, ht, List.isEmpty_iff, hne]

end ProcessWindowsBranches

theorem not_mem_filtered_of_sent {α : Type} {f : FileState} {x : String}
    (hx : WorkflowCache.hasBeenSent f x = true) (w : List (α × String)) :
    x ∉ (w.filter (undelivered f)).map Prod.snd := by
  intro hmem
  rcases List.mem_map.mp hmem with ⟨p, hp, hpx⟩
  have hpass := (List.mem_filter.mp hp).2
  simp only [undelivered, Bool.not_eq_true'] at hpass
  rw [hpx, hx] at hpass
  simp at hpass

theorem pw_file_mono {α : Type} (cfg : Config) (t : Nat → TransportOutcome)
    {x : String} :
    ∀ (W : List (List (α × String))) (k : Nat) (f : FileState),
      WorkflowCache.hasBeenSent f x = true →
      WorkflowCache.hasBeenSent (processWindows cfg t k W f).file x = true := by
  intro W
  induction W with
  | nil => intro k f h; rw [pw_nil]; exact h
  | cons w ws ih =>
    intro k f h
    by_cases hE : w.filter (undelivered f) = []
    · rw [pw_skip cfg t k w ws f hE]
      exact ih k f h
    · by_cases hd : cfg.dryRun
      · cases hm : WorkflowCache.markAsSent f
            ((w.filter (undelivered f)).map Prod.snd) with
        | ok f' =>
          rw [pw_dry_ok cfg t k w ws f f' hE hd hm]
          exact ih k f' (WorkflowCache.markAsSent_mono hm h)
        | error u =>
          cases u
          rw [pw_dry_err cfg t k w ws f hE hd hm]
          exact h
      · have hd' : cfg.dryRun = false := by simpa using hd
        cases ht : t k with
        | ok =>
          cases hm : WorkflowCache.markAsSent f
              ((w.filter (undelivered f)).map Prod.snd) with
          | ok f' =>
            rw [pw_live_ok cfg t k w ws f f' hE hd' ht hm]
            exact ih (k + 1) f' (WorkflowCache.markAsSent_mono hm h)
          | error u =>
            cases u
            rw [pw_live_markErr cfg t k w ws f hE hd' ht hm]
            exact h
        | errKnown msg =>
          rw [pw_live_errKnown cfg t k w ws f hE hd' ht]
          exact h
        | errUnknown =>
          rw [pw_live_errUnknown cfg t k w ws f hE hd' ht]
          exact h

theorem pw_calls_avoid {α : Type} (cfg : Config) (t : Nat → TransportOutcome)
    {x : String} :
    ∀ (W : List (List (α × String))) (k : Nat) (f : FileState),
      WorkflowCache.hasBeenSent f x = true →
      ∀ c ∈ (processWindows cfg t k W f).calls, x ∉ c.map Prod.snd := by
  intro W
  induction W with
  | nil => intro k f _ c hc; rw [pw_nil] at hc; simp at hc
  | cons w ws ih =>
    intro k f h c hc
    by_cases hE : w.filter (undelivered f) = []
    · rw [pw_skip cfg t k w ws f hE] at hc
      exact ih k f h c hc
    · by_cases hd : cfg.dryRun
      · cases hm : WorkflowCache.markAsSent f
            ((w.filter (undelivered f)).map Prod.snd) with
        | ok f' =>
          rw [pw_dry_ok cfg t k w ws f f' hE hd hm] at hc
          exact ih k f' (WorkflowCache.markAsSent_mono hm h) c hc
        | error u =>
          cases u
          rw [pw_dry_err cfg t k w ws f hE hd hm] at hc
          simp at hc
      · have hd' : cfg.dryRun = false := by simpa using hd
        cases ht : t k with
        | ok =>
          cases hm : WorkflowCache.markAsSent f
              ((w.filter (undelivered f)).map Prod.snd) with
          | ok f' =>
            rw [pw_live_ok cfg t k w ws f f' hE hd' ht hm] at hc
            rcases List.mem_cons.mp hc with hc | hc
            · subst hc; exact not_mem_filtered_of_sent h w
            · exact ih (k + 1) f' (WorkflowCache.markAsSent_mono hm h) c hc
          | error u =>
            cases u
            rw [pw_live_markErr cfg t k w ws f hE hd' ht hm] at hc
            rcases List.mem_cons.mp hc with hc | hc
            · subst hc; exact not_mem_filtered_of_sent h w
            · simp at hc
        | errKnown msg =>
          rw [pw_live_errKnown cfg t k w ws f hE hd' ht] at hc
          rcases List.mem_cons.mp hc with hc | hc
          · subst hc; exact not_mem_filtered_of_sent h w
          · simp at hc
        | errUnknown =>
          rw [pw_live_errUnknown cfg t k w ws f hE hd' ht] at hc
          rcases List.mem_cons.mp hc with hc | hc
          · subst hc; exact not_mem_filtered_of_sent h w
          · simp at hc

theorem pw_dry_no_calls {α : Type} (cfg : Config)
    (t : Nat → TransportOutcome) (hdry : cfg.dryRun = true) :
    ∀ (W : List (List (α × String))) (k : Nat) (f : FileState),
      (processWindows cfg t k W f).calls = [] := by
  intro W
  induction W with
  | nil => intro k f; rw [pw_nil]
  | cons w ws ih =>
    intro k f
    by_cases hE : w.filter (undelivered f) = []
    · rw [pw_skip cfg t k w ws f hE]
      exact ih k f
    · cases hm : WorkflowCache.markAsSent f
          ((w.filter (undelivered f)).map Prod.snd) with
      | ok f' =>
        rw [pw_dry_ok cfg t k w ws f f' hE hdry hm]
        exact ih k f'
      | error u =>
        cases u
        rw [pw_dry_err cfg t k w ws f hE hdry hm]

theorem pw_audits_length {α : Type} (cfg : Config)
    (t : Nat → TransportOutcome) (hdry : cfg.dryRun = false) :
    ∀ (W : List (List (α × String))) (k : Nat) (f : FileState),
      (processWindows cfg t k W f).audits.length =
        (processWindows cfg t k W f).calls.length := by
  intro W
  induction W with
  | nil => intro k f; rw [pw_nil]; rfl
  | cons w ws ih =>
    intro k f
    by_cases hE : w.filter (undelivered f) = []
    · rw [pw_skip cfg t k w ws f hE]
      exact ih k f
    · cases ht : t k with
      | ok =>
        cases hm : WorkflowCache.markAsSent f
            ((w.filter (undelivered f)).map Prod.snd) with
        | ok f' =>
          rw [pw_live_ok cfg t k w ws f f' hE hdry ht hm]
          simp only [List.length_cons]
          rw [ih (k + 1) f']
        | error u =>
          cases u
          rw [pw_live_markErr cfg t k w ws f hE hdry ht hm]
          rfl
      | errKnown msg =>
        rw [pw_live_errKnown cfg t k w ws f hE hdry ht]
        rfl
      | errUnknown =>
        rw [pw_live_errUnknown cfg t k w ws f hE hdry ht]
        rfl

theorem sent_of_filter_nil {α : Type} {f : FileState} {w : List (α × String)}
    (h : w.filter (undelivered f) = []) :
    ∀ p ∈ w, WorkflowCache.hasBeenSent f p.2 = true := by
  intro p hp
  have := List.filter_eq_nil_iff.mp h p hp
  simpa [undelivered, Bool.not_eq_true'] using this

theorem filter_nil_of_sent {α : Type} {f : FileState} {w : List (α × String)}
    (h : ∀ p ∈ w, WorkflowCache.hasBeenSent f p.2 = true) :
    w.filter (undelivered f) = [] := by
  refine List.filter_eq_nil_iff.mpr ?_
  intro p hp
  simp [undelivered, Bool.not_eq_true', h p hp]

theorem mem_marked_of_unsent {α : Type} {f : FileState}
    {w : List (α × String)} {p : α × String} (hp : p ∈ w)
    (h : WorkflowCache.hasBeenSent f p.2 = false) :
    p.2 ∈ (w.filter (undelivered f)).map Prod.snd := by
  refine List.mem_map.mpr ⟨p, ?_, rfl⟩
  refine List.mem_filter.mpr ⟨hp, ?_⟩
  simp [undelivered, h]

theorem pw_success_marks {α : Type} (cfg : Config)
    (t : Nat → TransportOutcome) :
    ∀ (W : List (List (α × String))) (k : Nat) (f : FileState),
      (processWindows cfg t k W f).error = none →
      ∀ w ∈ W, ∀ p ∈ w,
        WorkflowCache.hasBeenSent (processWindows cfg t k W f).file p.2
          = true := by
  intro W
  induction W with
  | nil => intro k f _ w hw; simp at hw
  | cons w ws ih =>
    intro k f herr w' hw' p hp
    by_cases hE : w.filter (undelivered f) = []
    · rw [pw_skip cfg t k w ws f hE] at herr ⊢
      rcases List.mem_cons.mp hw' with hw' | hw'
      · subst hw'
        exact pw_file_mono cfg t ws k f (sent_of_filter_nil hE p hp)
      · exact ih k f herr w' hw' p hp
    · by_cases hd : cfg.dryRun
      · cases hm : WorkflowCache.markAsSent f
            ((w.filter (undelivered f)).map Prod.snd) with
        | ok f' =>
          rw [pw_dry_ok cfg t k w ws f f' hE hd hm] at herr ⊢
          rcases List.mem_cons.mp hw' with hw' | hw'
          · subst hw'
            by_cases hs : WorkflowCache.hasBeenSent f p.2 = true
            · exact pw_file_mono cfg t ws k f'
                (WorkflowCache.markAsSent_mono hm hs)
            · have hs' : WorkflowCache.hasBeenSent f p.2 = false := by
                simpa using hs
              have hmem := mem_marked_of_unsent hp hs'
              exact pw_file_mono cfg t ws k f'
                ((WorkflowCache.markAsSent_mem hm p.2).mpr (Or.inr hmem))
          · exact ih k f' herr w' hw' p hp
        | error u =>
          cases u
          rw [pw_dry_err cfg t k w ws f hE hd hm] at herr
          simp at herr
      · have hd' : cfg.dryRun = false := by simpa using hd
        cases ht : t k with
        | ok =>
          cases hm : WorkflowCache.markAsSent f
              ((w.filter (undelivered f)).map Prod.snd) with
          | ok f' =>
            rw [pw_live_ok cfg t k w ws f f' hE hd' ht hm] at herr ⊢
            rcases List.mem_cons.mp hw' with hw' | hw'
            · subst hw'
              by_cases hs : WorkflowCache.hasBeenSent f p.2 = true
              · exact pw_file_mono cfg t ws (k + 1) f'
                  (WorkflowCache.markAsSent_mono hm hs)
              · have hs' : WorkflowCache.hasBeenSent f p.2 = false := by
                  simpa using hs
                have hmem := mem_marked_of_unsent hp hs'
                exact pw_file_mono cfg t ws (k + 1) f'
                  ((WorkflowCache.markAsSent_mem hm p.2).mpr (Or.inr hmem))
            · exact ih (k + 1) f' herr w' hw' p hp
          | error u =>
            cases u
            rw [pw_live_markErr cfg t k w ws f hE hd' ht hm] at herr
            simp at herr
        | errKnown msg =>
          rw [pw_live_errKnown cfg t k w ws f hE hd' ht] at herr
          simp at herr
        | errUnknown =>
          rw [pw_live_errUnknown cfg t k w ws f hE hd' ht] at herr
          simp at herr

theorem pw_all_sent_skip {α : Type} (cfg : Config)
    (t : Nat → TransportOutcome) :
    ∀ (W : List (List (α × String))) (k : Nat) (f : FileState),
      (∀ w ∈ W, ∀ p ∈ w, WorkflowCache.hasBeenSent f p.2 = true) →
      (processWindows cfg t k W f).error = none ∧
      (processWindows cfg t k W f).calls = [] ∧
      (processWindows cfg t k W f).audits = [] ∧
      (processWindows cfg t k W f).file = f := by
  intro W
  induction W with
  | nil => intro k f _; rw [pw_nil]; exact ⟨rfl, rfl, rfl, rfl⟩
  | cons w ws ih =>
    intro k f h
    have hE : w.filter (undelivered f) = [] :=
      filter_nil_of_sent (h w (List.mem_cons_self w ws))
    rw [pw_skip cfg t k w ws f hE]
    have := ih k f (fun w' hw' => h w' (List.mem_cons_of_mem w hw'))
    exact ⟨this.1, this.2.1, this.2.2.1, this.2.2.2⟩

theorem contains_true_iff {l : List String} {x : String} :
    l.contains x = true ↔ x ∈ l := by
  simp

theorem pw_countP_le_one {α : Type} (cfg : Config)
    (t : Nat → TransportOutcome) (x : String) :
    ∀ (W : List (List (α × String))) (k : Nat) (f : FileState),
      (processWindows cfg t k W f).calls.countP
        (fun c => (c.map Prod.snd).contains x) ≤ 1 := by
  intro W
  induction W with
  | nil => intro k f; rw [pw_nil]; simp
  | cons w ws ih =>
    intro k f
    by_cases hE : w.filter (undelivered f) = []
    · rw [pw_skip cfg t k w ws f hE]
      exact ih k f
    · by_cases hd : cfg.dryRun
      · cases hm : WorkflowCache.markAsSent f
            ((w.filter (undelivered f)).map Prod.snd) with
        | ok f' =>
          rw [pw_dry_ok cfg t k w ws f f' hE hd hm]
          exact ih k f'
        | error u =>
          cases u
          rw [pw_dry_err cfg t k w ws f hE hd hm]
          simp
      · have hd' : cfg.dryRun = false := by simpa using hd
        cases ht : t k with
        | ok =>
          cases hm : WorkflowCache.markAsSent f
              ((w.filter (undelivered f)).map Prod.snd) with
          | ok f' =>
            rw [pw_live_ok cfg t k w ws f f' hE hd' ht hm]
            simp only [List.countP_cons]
            by_cases hxw :
                ((w.filter (undelivered f)).map Prod.snd).contains x = true
            · have hsent : WorkflowCache.hasBeenSent f' x = true :=
                (WorkflowCache.markAsSent_mem hm x).mpr
                  (Or.inr (contains_true_iff.mp hxw))
              have hzero :
                  (processWindows cfg t (k + 1) ws f').calls.countP
                    (fun c => (c.map Prod.snd).contains x) = 0 := by
                refine List.countP_eq_zero.mpr ?_
                intro c hc
                simp only [Bool.not_eq_true]
                by_contra hcon
                have : (c.map Prod.snd).contains x = true := by
                  simpa using hcon
                exact pw_calls_avoid cfg t ws (k + 1) f' hsent c hc
                  (contains_true_iff.mp this)
              rw [hzero, hxw]
              simp
            · have hxw' :
                  ((w.filter (undelivered f)).map Prod.snd).contains x
                    = false := by simpa using hxw
              rw [hxw']
              simpa using ih (k + 1) f'
          | error u =>
            cases u
            rw [pw_live_markErr cfg t k w ws f hE hd' ht hm]
            exact le_trans (List.countP_le_length _) (by simp)
        | errKnown msg =>
          rw [pw_live_errKnown cfg t k w ws f hE hd' ht]
          exact le_trans (List.countP_le_length _) (by simp)
        | errUnknown =>
          rw [pw_live_errUnknown cfg t k w ws f hE hd' ht]
          exact le_trans (List.countP_le_length _) (by simp)

theorem pw_present {α : Type} (cfg : Config) (t : Nat → TransportOutcome)
    (hdry : cfg.dryRun = false) :
    ∀ (W : List (List (α × String))) (k : Nat) (f : FileState),
      (processWindows cfg t k W f).error = none →
      ∀ w ∈ W, ∀ p ∈ w, WorkflowCache.hasBeenSent f p.2 = false →
        ∃ c ∈ (processWindows cfg t k W f).calls, p.2 ∈ c.map Prod.snd := by
  intro W
  induction W with
  | nil => intro k f _ w hw; simp at hw
  | cons w ws ih =>
    intro k f herr w' hw' p hp hunsent
    by_cases hE : w.filter (undelivered f) = []
    · rw [pw_skip cfg t k w ws f hE] at herr ⊢
      rcases List.mem_cons.mp hw' with hw' | hw'
      · subst hw'
        have := sent_of_filter_nil hE p hp
        rw [this] at hunsent
        simp at hunsent
      · exact ih k f herr w' hw' p hp hunsent
    · cases ht : t k with
      | ok =>
        cases hm : WorkflowCache.markAsSent f
            ((w.filter (undelivered f)).map Prod.snd) with
        | ok f' =>
          rw [pw_live_ok cfg t k w ws f f' hE hdry ht hm] at herr ⊢
          rcases List.mem_cons.mp hw' with hw' | hw'
          · rw [hw'] at hp
            exact ⟨List.filter (undelivered f) w, List.mem_cons_self _ _,
              mem_marked_of_unsent hp hunsent⟩
          · by_cases hs : WorkflowCache.hasBeenSent f' p.2 = true
            · have := (WorkflowCache.markAsSent_mem hm p.2).mp hs
              rcases this with h | h
              · rw [h] at hunsent; simp at hunsent
              · exact ⟨List.filter (undelivered f) w, List.mem_cons_self _ _, h⟩
            · have hs' : WorkflowCache.hasBeenSent f' p.2 = false := by
                simpa using hs
              rcases ih (k + 1) f' herr w' hw' p hp hs' with ⟨c, hc, hcx⟩
              exact ⟨c, List.mem_cons_of_mem _ hc, hcx⟩
        | error u =>
          cases u
          rw [pw_live_markErr cfg t k w ws f hE hdry ht hm] at herr
          simp at herr
      | errKnown msg =>
        rw [pw_live_errKnown cfg t k w ws f hE hdry ht] at herr
        simp at herr
      | errUnknown =>
        rw [pw_live_errUnknown cfg t k w ws f hE hdry ht] at herr
        simp at herr

/-- Recognizer of errors that arise from the Transport call itself, i.e.
from the awaited `this.metricsApi.submitMetrics` throwing. -/
def transportFailed : Option SubmitError → Bool
  | some (.transportError _) => true
  | some .unknownTransportError => true
  | _ => false

theorem pw_fail_char {α : Type} (cfg : Config) (t : Nat → TransportOutcome)
    (hdry : cfg.dryRun = false) :
    ∀ (W : List (List (α × String))) (k : Nat) (f : FileState),
      transportFailed (processWindows cfg t k W f).error = true →
      (processWindows cfg t k W f).calls ≠ [] ∧
      ∀ x, (WorkflowCache.hasBeenSent (processWindows cfg t k W f).file x
          = true ↔
        WorkflowCache.hasBeenSent f x = true ∨
          ∃ c ∈ (processWindows cfg t k W f).calls.dropLast,
            x ∈ c.map Prod.snd) := by
  intro W
  induction W with
  | nil => intro k f hfail; rw [pw_nil] at hfail; simp [transportFailed] at hfail
  | cons w ws ih =>
    intro k f hfail
    by_cases hE : w.filter (undelivered f) = []
    · rw [pw_skip cfg t k w ws f hE] at hfail ⊢
      exact ih k f hfail
    · cases ht : t k with
      | ok =>
        cases hm : WorkflowCache.markAsSent f
            ((w.filter (undelivered f)).map Prod.snd) with
        | ok f' =>
          rw [pw_live_ok cfg t k w ws f f' hE hdry ht hm] at hfail ⊢
          have hih := ih (k + 1) f' hfail
          refine ⟨by simp, ?_⟩
          intro x
          have hdl : (w.filter (undelivered f) ::
              (processWindows cfg t (k + 1) ws f').calls).dropLast =
              w.filter (undelivered f) ::
                (processWindows cfg t (k + 1) ws f').calls.dropLast :=
            List.dropLast_cons_of_ne_nil hih.1
          rw [hdl]
          rw [hih.2 x, WorkflowCache.markAsSent_mem hm x]
          rw [List.exists_mem_cons_iff]
          constructor
          · rintro ((h | h) | h)
            · exact Or.inl h
            · exact Or.inr (Or.inl h)
            · exact Or.inr (Or.inr h)
          · rintro (h | h | h)
            · exact Or.inl (Or.inl h)
            · exact Or.inl (Or.inr h)
            · exact Or.inr h
        | error u =>
          cases u
          rw [pw_live_markErr cfg t k w ws f hE hdry ht hm] at hfail
          simp [transportFailed] at hfail
      | errKnown msg =>
        rw [pw_live_errKnown cfg t k w ws f hE hdry ht]
        refine ⟨by simp, ?_⟩
        intro x
        simp
      | errUnknown =>
        rw [pw_live_errUnknown cfg t k w ws f hE hdry ht]
        refine ⟨by simp, ?_⟩
        intro x
        simp

theorem pw_calls_winnow {α : Type} (cfg : Config)
    (t : Nat → TransportOutcome) (hdry : cfg.dryRun = false)
    (hok : ∀ j, t j = .ok) :
    ∀ (W : List (List (α × String))) (k : Nat) (s : List String),
      ((W.flatten).map Prod.snd).Nodup →
      (processWindows cfg t k W (.ok s)).error = none ∧
      (processWindows cfg t k W (.ok s)).calls =
        W.filterMap (winnow (.ok s)) := by
  intro W
  induction W with
  | nil => intro k s _; rw [pw_nil]; exact ⟨rfl, rfl⟩
  | cons w ws ih =>
    intro k s hnd
    have hnd' : ((w :: ws).flatten).map Prod.snd =
        w.map Prod.snd ++ (ws.flatten).map Prod.snd := by
      simp
    rw [hnd'] at hnd
    rcases List.nodup_append.mp hnd with ⟨nd1, nd2, disj⟩
    by_cases hE : w.filter (undelivered (FileState.ok s)) = []
    · rw [pw_skip cfg t k w ws (FileState.ok s) hE]
      have hwn : winnow (FileState.ok s) w = none := by
        simp [winnow, hE]
      rcases ih k s nd2 with ⟨he, hc⟩
      refine ⟨he, ?_⟩
      simp [List.filterMap_cons, hwn, hc]
    · have ht : t k = .ok := hok k
      have hm : WorkflowCache.markAsSent (FileState.ok s)
          ((w.filter (undelivered (FileState.ok s))).map Prod.snd) =
          .ok (.ok (dedupFirst (s ++
            (w.filter (undelivered (FileState.ok s))).map Prod.snd))) :=
        WorkflowCache.markAsSent_ok s _
      rw [pw_live_ok cfg t k w ws (FileState.ok s) _ hE hdry ht hm]
      rcases ih (k + 1)
          (dedupFirst (s ++
            (w.filter (undelivered (FileState.ok s))).map Prod.snd))
          nd2 with ⟨he, hc⟩
      refine ⟨he, ?_⟩
      have hwn : winnow (FileState.ok s) w =
          some (w.filter (undelivered (FileState.ok s))) := by
        simp [winnow, List.isEmpty_iff, hE]
      simp only [List.filterMap_cons, hwn, hc]
      congr 1
      refine List.filterMap_congr ?_
      intro w' hw'
      have hfeq : w'.filter (undelivered (FileState.ok (dedupFirst (s ++
          (w.filter (undelivered (FileState.ok s))).map Prod.snd)))) =
          w'.filter (undelivered (FileState.ok s)) := by
        refine List.filter_congr ?_
        intro p hp
        have hpin : p.2 ∈ (ws.flatten).map Prod.snd := by
          refine List.mem_map.mpr ⟨p, ?_, rfl⟩
          exact List.mem_flatten.mpr ⟨w', hw', hp⟩
        have hnotw : p.2 ∉ w.map Prod.snd := fun hmem =>
          disj hmem hpin
        have hnotL : p.2 ∉
            (w.filter (undelivered (FileState.ok s))).map Prod.snd := by
          intro hmem
          rcases List.mem_map.mp hmem with ⟨q, hq, hq2⟩
          exact hnotw (List.mem_map.mpr
            ⟨q, List.mem_of_mem_filter hq, hq2⟩)
        have hbool : WorkflowCache.hasBeenSent
            (FileState.ok (dedupFirst (s ++
              (w.filter (undelivered (FileState.ok s))).map Prod.snd)))
              p.2 =
            WorkflowCache.hasBeenSent (FileState.ok s) p.2 := by
          refine Bool.coe_iff_coe.mp ?_
          rw [WorkflowCache.hasBeenSent_ok, WorkflowCache.hasBeenSent_ok,
            mem_dedupFirst, List.mem_append]
          constructor
          · rintro (h | h)
            · exact h
            · exact absurd h hnotL
          · exact Or.inl
        simp [undelivered, hbool]
      simp only [winnow]
      rw [hfeq]

theorem pw_head {α : Type} (cfg : Config) (t : Nat → TransportOutcome)
    (k : Nat) (w : List (α × String)) (ws : List (List (α × String)))
    (f : FileState) (hne : w.filter (undelivered f) ≠ [])
    (hdry : cfg.dryRun = false) :
    (processWindows cfg t k (w :: ws) f).calls.headD [] =
      w.filter (undelivered f) := by
  cases ht : t k with
  | ok =>
    cases hm : WorkflowCache.markAsSent f
        ((w.filter (undelivered f)).map Prod.snd) with
    | ok f' => rw [pw_live_ok cfg t k w ws f f' hne hdry ht hm]; rfl
    | error u =>
      cases u
      rw [pw_live_markErr cfg t k w ws f hne hdry ht hm]
      rfl
  | errKnown msg =>
    rw [pw_live_errKnown cfg t k w ws f hne hdry ht]
    rfl
  | errUnknown =>
    rw [pw_live_errUnknown cfg t k w ws f hne hdry ht]
    rfl

theorem submit_eq {α : Type} (cfg : Config) (t : Nat → TransportOutcome)
    (store : Store) (series : List α) (workflowIds : List String)
    (hlen : series.length = workflowIds.length) :
    submitMetrics cfg t store series workflowIds =
      ⟨(processWindows cfg t 0 (chunkList cfg.batchSize
          (series.zip workflowIds)) (store.get cfg.dryRun)).error,
        (processWindows cfg t 0 (chunkList cfg.batchSize
          (series.zip workflowIds)) (store.get cfg.dryRun)).calls,
        (processWindows cfg t 0 (chunkList cfg.batchSize
          (series.zip workflowIds)) (store.get cfg.dryRun)).audits,
        store.set cfg.dryRun
          (processWindows cfg t 0 (chunkList cfg.batchSize
            (series.zip workflowIds)) (store.get cfg.dryRun)).file,
        (processWindows cfg t 0 (chunkList cfg.batchSize
          (series.zip workflowIds)) (store.get cfg.dryRun)).reads,
        (processWindows cfg t 0 (chunkList cfg.batchSize
          (series.zip workflowIds)) (store.get cfg.dryRun)).writes⟩ := by
  rw [submitMetrics]
  simp [hlen]

theorem submit_mismatch {α : Type} (cfg : Config)
    (t : Nat → TransportOutcome) (store : Store) (series : List α)
    (workflowIds : List String) (hlen : series.length ≠ workflowIds.length) :
    submitMetrics cfg t store series workflowIds =
      ⟨some (.pairingMismatch series.length workflowIds.length),
        [], [], store, 0, 0⟩ := by
  rw [submitMetrics]
  simp [hlen]

theorem applyMarks_sent (batches : List (List String)) :
    ∀ (s : List String) (id : String),
      WorkflowCache.hasBeenSent (applyMarks batches (.ok s)) id = true ↔
        id ∈ s ∨ id ∈ batches.flatten := by
  induction batches with
  | nil =>
    intro s id
    rw [applyMarks, WorkflowCache.hasBeenSent_ok]
    simp
  | cons b bs ih =>
    intro s id
    have h1 : applyMarks (b :: bs) (.ok s) =
        applyMarks bs (.ok (dedupFirst (s ++ b))) := by
      rw [applyMarks, WorkflowCache.markAsSent_ok]
    rw [h1, ih (dedupFirst (s ++ b)) id, mem_dedupFirst, List.mem_append]
    simp [List.mem_flatten, or_assoc]

theorem chunkList_eq_take_cons {n : Nat} (hn : 1 ≤ n) {l : List β}
    (hl : l ≠ []) :
    chunkList n l = l.take n :: chunkList n (l.drop n) := by
  obtain ⟨x, xs, rfl⟩ := List.exists_cons_of_ne_nil hl
  exact chunkList_cons_of_pos hn x xs

theorem two_le_count_of_get :
    ∀ (l : List String) (i j : Nat) (x : String), i < l.length →
      j < l.length → i < j →
      (∀ hi : i < l.length, l.get ⟨i, hi⟩ = x) →
      (∀ hj : j < l.length, l.get ⟨j, hj⟩ = x) → 2 ≤ l.count x := by
  intro l
  induction l with
  | nil => intro i j x hi _ _ _ _; simp at hi
  | cons a l' ih =>
    intro i j x hi hj hij hxi hxj
    cases j with
    | zero => omega
    | succ j' =>
      have hj' : j' < l'.length := by simpa using hj
      cases i with
      | zero =>
        have hax : a = x := hxi hi
        have hmem : x ∈ l' := by
          rw [List.mem_iff_get]
          refine ⟨⟨j', hj'⟩, ?_⟩
          have := hxj hj
          simpa using this
        have h1 : 0 < l'.count x := List.count_pos_iff.mpr hmem
        have hcc : (a :: l').count x =
            l'.count x + if a == x then 1 else 0 := List.count_cons x a l'
        rw [hcc, hax]
        simp only [beq_self_eq_true, if_true]
        omega
      | succ i' =>
        have hi' : i' < l'.length := by simpa using hi
        have hxi' : ∀ h : i' < l'.length, l'.get ⟨i', h⟩ = x := by
          intro h
          have := hxi hi
          simpa using this
        have hxj' : ∀ h : j' < l'.length, l'.get ⟨j', h⟩ = x := by
          intro h
          have := hxj hj
          simpa using this
        have := ih i' j' x hi' hj' (by omega) hxi' hxj'
        have hcc : (a :: l').count x =
            l'.count x + if a == x then 1 else 0 := List.count_cons x a l'
        rw [hcc]
        omega

theorem countP_congr_eq {p q : β → Bool} {l : List β}
    (h : ∀ a ∈ l, p a = q a) : l.countP p = l.countP q := by
  rw [List.countP_eq_length_filter, List.countP_eq_length_filter,
    List.filter_congr h]

theorem pw_window_dup {α : Type} (cfg : Config) (t : Nat → TransportOutcome)
    (hdry : cfg.dryRun = false) (k : Nat) (w : List (α × String))
    (ws : List (List (α × String))) (f : FileState) (i j : Nat) (x : String)
    (hi : i < w.length) (hj : j < w.length) (hij : i < j)
    (hxi : (w.get ⟨i, hi⟩).2 = x)
    (hxj : (w.get ⟨j, hj⟩).2 = x)
    (hunsent : WorkflowCache.hasBeenSent f x = false) :
    2 ≤ ((processWindows cfg t k (w :: ws) f).calls.headD []).countP
      (fun p => p.2 == x) := by
  have hqmem : w.get ⟨i, hi⟩ ∈ w.filter (undelivered f) := by
    refine List.mem_filter.mpr ⟨List.get_mem w i hi, ?_⟩
    simp only [undelivered, Bool.not_eq_true']
    rw [hxi]
    exact hunsent
  have hne : w.filter (undelivered f) ≠ [] := by
    intro hnil
    rw [hnil] at hqmem
    simp at hqmem
  rw [pw_head cfg t k w ws f hne hdry]
  have hcf : (w.filter (undelivered f)).countP (fun p => p.2 == x) =
      w.countP (fun p => p.2 == x) := by
    rw [List.countP_filter]
    refine countP_congr_eq ?_
    intro a _
    by_cases hax : a.2 = x
    · simp [undelivered, hax, hunsent]
    · simp [hax]
  rw [hcf]
  have hmap : w.countP (fun p => p.2 == x) = (w.map Prod.snd).count x := by
    rw [List.count, List.countP_map]
    rfl
  rw [hmap]
  refine two_le_count_of_get (w.map Prod.snd) i j x
    (by simpa using hi) (by simpa using hj) hij ?_ ?_
  · intro h
    rw [List.get_eq_getElem, List.getElem_map]
    have := hxi
    rw [List.get_eq_getElem] at this
    simpa using this
  · intro h
    rw [List.get_eq_getElem, List.getElem_map]
    have := hxj
    rw [List.get_eq_getElem] at this
    simpa using this

theorem flatten_filterMap_winnow {α : Type} (f : FileState) :
    ∀ (W : List (List (α × String))),
      (W.filterMap (winnow f)).flatten = (W.flatten).filter (undelivered f)
  | [] => rfl
  | w :: ws => by
    by_cases hE : w.filter (undelivered f) = []
    · have hwn : winnow f w = none := by simp [winnow, hE]
      rw [List.filterMap_cons, hwn]
      simp only [List.flatten_cons, List.filter_append, hE,
        List.nil_append]
      exact flatten_filterMap_winnow f ws
    · have hwn : winnow f w = some (w.filter (undelivered f)) := by
        simp [winnow, List.isEmpty_iff, hE]
      rw [List.filterMap_cons, hwn]
      simp only [List.flatten_cons, List.filter_append]
      rw [flatten_filterMap_winnow f ws]

/-- C3: for every call to `submitMetrics` where the length of
`payload.series` differs from the length of `workflowIds`, the call fails
with the pairing-mismatch error before any side effect — zero Transport
calls, zero ledger reads or writes, and zero audit-log writes occur, and
the store is unchanged. -/
theorem C3_pairing_precondition {α : Type} (cfg : Config)
    (t : Nat → TransportOutcome) (store : Store) (series : List α)
    (workflowIds : List String)
    (hlen : series.length ≠ workflowIds.length) :
    submitMetrics cfg t store series workflowIds =
      ⟨some (.pairingMismatch series.length workflowIds.length),
        [], [], store, 0, 0⟩ := by
  rw [submitMetrics]
  simp [hlen]

/-- Witness for C3 at a concrete input: one series entry paired with two
workflow ids fails with the mismatch error and produces no effect. -/
theorem C3_pairing_precondition_witness :
    ([1] : List Nat).length ≠ (["workflow-1", "workflow-2"] :
      List String).length ∧
    submitMetrics ⟨false, 10⟩ (fun _ => .ok) ⟨.ok [], .ok []⟩
        ([1] : List Nat) ["workflow-1", "workflow-2"] =
      ⟨some (.pairingMismatch 1 2), [], [], ⟨.ok [], .ok []⟩, 0, 0⟩ :=
  ⟨by decide, C3_pairing_precondition ⟨false, 10⟩ (fun _ => .ok)
    ⟨.ok [], .ok []⟩ [1] ["workflow-1", "workflow-2"] (by decide)⟩

/-- C6: `hasBeenSent` is total (never throws): on a store built from any
sequence of `markAsSent` batches it returns `true` exactly for the recorded
identifiers, it returns `false` for a well-formed but absent identifier,
and on a missing/unreadable/unparseable backing file it returns `false`
(treated as not yet delivered) instead of raising. -/
theorem C6_hasBeenSent_fail_open :
    (∀ id, WorkflowCache.hasBeenSent FileState.corrupt id = false) ∧
    (∀ (batches : List (List String)) (id : String),
      WorkflowCache.hasBeenSent (applyMarks batches (FileState.ok []))
          id = true ↔ id ∈ batches.flatten) := by
  constructor
  · intro id
    rfl
  · intro batches id
    rw [applyMarks_sent batches [] id]
    simp

/-- C7: `markAsSent` on a readable ledger is an idempotent, monotone set
insert: the stored list becomes the order-preserving union of the previous
contents and the inserted ids, holds no duplicates, inserting
already-present ids is a no-op on the stored list, and no existing entry is
removed. -/
theorem C7_markAsSent_idempotent_insert (s L : List String) :
    WorkflowCache.markAsSent (FileState.ok s) L =
      .ok (.ok (dedupFirst (s ++ L))) ∧
    (∀ id, id ∈ dedupFirst (s ++ L) ↔ id ∈ s ∨ id ∈ L) ∧
    (dedupFirst (s ++ L)).Nodup ∧
    (∀ id ∈ s, id ∈ dedupFirst (s ++ L)) ∧
    (s.Nodup → (∀ x ∈ L, x ∈ s) → dedupFirst (s ++ L) = s) := by
  refine ⟨WorkflowCache.markAsSent_ok s L, ?_, nodup_dedupFirst _, ?_, ?_⟩
  · intro id
    rw [mem_dedupFirst, List.mem_append]
  · intro id hid
    rw [mem_dedupFirst, List.mem_append]
    exact Or.inl hid
  · intro hs hL
    exact dedupFirst_append_of_subset hs hL

/-- C5: mode isolation.  In dry-run mode `submitMetrics` makes no Transport
call, leaves the live-mode ledger file untouched, and (when the call
succeeds) marks every submitted identifier as delivered in the
dry-run-namespaced ledger only; conversely a live-mode call leaves the
dry-run ledger file untouched. -/
theorem C5_mode_isolation {α : Type} (cfg : Config)
    (t : Nat → TransportOutcome) (store : Store) (series : List α)
    (workflowIds : List String) :
    (cfg.dryRun = true →
      (submitMetrics cfg t store series workflowIds).calls = [] ∧
      (submitMetrics cfg t store series workflowIds).store.live =
        store.live ∧
      ((submitMetrics cfg t store series workflowIds).error = none →
        ∀ x ∈ workflowIds,
          WorkflowCache.hasBeenSent
            (submitMetrics cfg t store series workflowIds).store.dry x
            = true)) ∧
    (cfg.dryRun = false →
      (submitMetrics cfg t store series workflowIds).store.dry =
        store.dry) := by
  by_cases hlen : series.length = workflowIds.length
  · rw [submit_eq cfg t store series workflowIds hlen]
    constructor
    · intro hdry
      refine ⟨pw_dry_no_calls cfg t hdry _ 0 _, ?_, ?_⟩
      · show (store.set cfg.dryRun _).live = store.live
        rw [hdry]
        exact Store.set_true_live store _
      · intro herr x hx
        have hsd : ∀ fl, (store.set cfg.dryRun fl).dry = fl := by
          intro fl
          rw [hdry]
          rfl
        show WorkflowCache.hasBeenSent (store.set cfg.dryRun _).dry x = true
        rw [hsd]
        have hmap : (series.zip workflowIds).map Prod.snd = workflowIds :=
          List.map_snd_zip series workflowIds (le_of_eq hlen.symm)
        have hx' : x ∈ (series.zip workflowIds).map Prod.snd := by
          rw [hmap]; exact hx
        rcases List.mem_map.mp hx' with ⟨p, hp, hpx⟩
        have hpflat : p ∈ (chunkList cfg.batchSize
            (series.zip workflowIds)).flatten := by
          rw [flatten_chunkList]
          exact hp
        rcases List.mem_flatten.mp hpflat with ⟨w, hw, hpw⟩
        have := pw_success_marks cfg t _ 0 (store.get cfg.dryRun) herr
          w hw p hpw
        rw [hpx] at this
        exact this
    · intro hdry
      show (store.set cfg.dryRun _).dry = store.dry
      rw [hdry]
      exact Store.set_false_dry store _
  · rw [submit_mismatch cfg t store series workflowIds hlen]
    constructor
    · intro _
      refine ⟨rfl, rfl, ?_⟩
      intro herr
      simp at herr
    · intro _
      rfl

/-- Witness for C5's live-mode frame conjunct at a concrete input: a
live-mode call with a fresh identifier leaves the dry-run ledger file
unchanged. -/
theorem C5_mode_isolation_witness :
    (submitMetrics ⟨false, 10⟩ (fun _ => .ok) ⟨.ok [], .ok ["z"]⟩
      ([1] : List Nat) ["workflow-1"]).store.dry = FileState.ok ["z"] :=
  (C5_mode_isolation ⟨false, 10⟩ (fun _ => .ok) ⟨.ok [], .ok ["z"]⟩
    [1] ["workflow-1"]).2 rfl

/-- C10: `markAsSent` fails closed on read errors — on a corrupt ledger
file it rethrows instead of writing, so a live-mode `submitMetrics` over a
corrupt live ledger performs the first Transport submission (hasBeenSent
treated the corrupt file as empty) and then aborts with the cache read
error, leaving the store unchanged and the delivery unrecorded. -/
theorem C10_markAsSent_fails_closed {α : Type} (cfg : Config)
    (t : Nat → TransportOutcome) (store : Store) (series : List α)
    (workflowIds : List String) (hdry : cfg.dryRun = false)
    (hbs : 1 ≤ cfg.batchSize) (hcor : store.live = FileState.corrupt)
    (hne : series ≠ []) (hlen : series.length = workflowIds.length)
    (ht : t 0 = .ok) :
    WorkflowCache.markAsSent FileState.corrupt
      (((series.zip workflowIds).take cfg.batchSize).map Prod.snd)
        = .error () ∧
    (submitMetrics cfg t store series workflowIds).error =
      some .cacheReadError ∧
    (submitMetrics cfg t store series workflowIds).calls =
      [(series.zip workflowIds).take cfg.batchSize] ∧
    (submitMetrics cfg t store series workflowIds).store = store := by
  have hplen : (series.zip workflowIds).length = series.length := by
    rw [List.length_zip]
    omega
  have hpne : series.zip workflowIds ≠ [] := by
    intro h
    apply hne
    apply List.eq_nil_of_length_eq_zero
    rw [← hplen, h]
    rfl
  have hf0 : store.get cfg.dryRun = FileState.corrupt := by
    rw [hdry]
    simpa [Store.get] using hcor
  have hfilter : ((series.zip workflowIds).take cfg.batchSize).filter
      (undelivered FileState.corrupt) =
      (series.zip workflowIds).take cfg.batchSize :=
    List.filter_eq_self.mpr (fun p _ => by
      simp [undelivered, WorkflowCache.hasBeenSent_corrupt])
  have hw0 : (series.zip workflowIds).take cfg.batchSize ≠ [] := by
    have hlpos : 0 < (series.zip workflowIds).length := by
      rw [hplen]
      cases series with
      | nil => exact absurd rfl hne
      | cons a l => simp
    rw [← List.length_pos, List.length_take]
    omega
  have hnef : ((series.zip workflowIds).take cfg.batchSize).filter
      (undelivered FileState.corrupt) ≠ [] := by
    rw [hfilter]
    exact hw0
  refine ⟨WorkflowCache.markAsSent_corrupt _, ?_, ?_, ?_⟩ <;>
    rw [submit_eq cfg t store series workflowIds hlen, hf0,
      chunkList_eq_take_cons hbs hpne,
      pw_live_markErr cfg t 0 _ _ FileState.corrupt hnef hdry ht
        (WorkflowCache.markAsSent_corrupt _)]
  · rw [hfilter]
  · show store.set cfg.dryRun FileState.corrupt = store
    obtain ⟨sl, sd⟩ := store
    simp only at hcor
    rw [hdry]
    simp [Store.set, hcor]

/-- Witness for C10 at a concrete input: live mode, batch size 2, corrupt
live ledger, three fresh pairs, Transport succeeding — the call makes the
first Transport invocation and then fails with the cache read error,
leaving the store unchanged. -/
theorem C10_markAsSent_fails_closed_witness :
    WorkflowCache.markAsSent FileState.corrupt
      (((([1, 2, 3] : List Nat).zip
        ["workflow-1", "workflow-2", "workflow-3"]).take 2).map Prod.snd)
        = .error () ∧
    (submitMetrics ⟨false, 2⟩ (fun _ => .ok) ⟨.corrupt, .ok []⟩
      ([1, 2, 3] : List Nat)
      ["workflow-1", "workflow-2", "workflow-3"]).error =
        some .cacheReadError ∧
    (submitMetrics ⟨false, 2⟩ (fun _ => .ok) ⟨.corrupt, .ok []⟩
      ([1, 2, 3] : List Nat)
      ["workflow-1", "workflow-2", "workflow-3"]).calls =
        [(([1, 2, 3] : List Nat).zip
          ["workflow-1", "workflow-2", "workflow-3"]).take 2] ∧
    (submitMetrics ⟨false, 2⟩ (fun _ => .ok) ⟨.corrupt, .ok []⟩
      ([1, 2, 3] : List Nat)
      ["workflow-1", "workflow-2", "workflow-3"]).store =
        ⟨.corrupt, .ok []⟩ :=
  C10_markAsSent_fails_closed ⟨false, 2⟩ (fun _ => .ok) ⟨.corrupt, .ok []⟩
    [1, 2, 3] ["workflow-1", "workflow-2", "workflow-3"] rfl (by decide)
    rfl (by decide) (by decide) rfl

/-- C1: idempotence of submission.  If a live-mode `submitMetrics` call
succeeds, then a second call with identical series and workflow ids against
the resulting store makes zero Transport calls and succeeds; across both
calls, every identifier is contained in at most one Transport invocation,
each initially undelivered submitted identifier in exactly one, and an
identifier already recorded in the ledger is never included in any
Transport payload. -/
theorem C1_idempotence {α : Type} (cfg : Config)
    (t1 t2 : Nat → TransportOutcome) (store : Store) (series : List α)
    (workflowIds : List String) (hdry : cfg.dryRun = false)
    (h1 : (submitMetrics cfg t1 store series workflowIds).error = none) :
    (submitMetrics cfg t2
      (submitMetrics cfg t1 store series workflowIds).store
      series workflowIds).calls = [] ∧
    (submitMetrics cfg t2
      (submitMetrics cfg t1 store series workflowIds).store
      series workflowIds).error = none ∧
    (∀ x : String,
      ((submitMetrics cfg t1 store series workflowIds).calls ++
        (submitMetrics cfg t2
          (submitMetrics cfg t1 store series workflowIds).store
          series workflowIds).calls).countP
        (fun c => (c.map Prod.snd).contains x) ≤ 1) ∧
    (∀ x ∈ workflowIds,
      WorkflowCache.hasBeenSent (store.get cfg.dryRun) x = false →
      ((submitMetrics cfg t1 store series workflowIds).calls ++
        (submitMetrics cfg t2
          (submitMetrics cfg t1 store series workflowIds).store
          series workflowIds).calls).countP
        (fun c => (c.map Prod.snd).contains x) = 1) ∧
    (∀ x : String,
      WorkflowCache.hasBeenSent (store.get cfg.dryRun) x = true →
      ∀ c ∈ (submitMetrics cfg t1 store series workflowIds).calls ++
        (submitMetrics cfg t2
          (submitMetrics cfg t1 store series workflowIds).store
          series workflowIds).calls,
        x ∉ c.map Prod.snd) := by
  have hlen : series.length = workflowIds.length := by
    by_contra hn
    rw [submit_mismatch cfg t1 store series workflowIds hn] at h1
    simp at h1
  have e1 := submit_eq cfg t1 store series workflowIds hlen
  have hr1err : (processWindows cfg t1 0 (chunkList cfg.batchSize
      (series.zip workflowIds)) (store.get cfg.dryRun)).error = none := by
    rw [e1] at h1
    exact h1
  have hr1store : (submitMetrics cfg t1 store series workflowIds).store =
      store.set cfg.dryRun (processWindows cfg t1 0 (chunkList cfg.batchSize
        (series.zip workflowIds)) (store.get cfg.dryRun)).file := by
    rw [e1]
  have e2 := submit_eq cfg t2
    (store.set cfg.dryRun (processWindows cfg t1 0 (chunkList cfg.batchSize
      (series.zip workflowIds)) (store.get cfg.dryRun)).file)
    series workflowIds hlen
  have hmarks := pw_success_marks cfg t1 (chunkList cfg.batchSize
    (series.zip workflowIds)) 0 (store.get cfg.dryRun) hr1err
  have hskip := pw_all_sent_skip cfg t2 (chunkList cfg.batchSize
    (series.zip workflowIds)) 0 (processWindows cfg t1 0
      (chunkList cfg.batchSize (series.zip workflowIds))
      (store.get cfg.dryRun)).file hmarks
  refine ⟨?_, ?_, ?_, ?_, ?_⟩
  · rw [hr1store, e2]
    dsimp only
    rw [Store.get_set]
    exact hskip.2.1
  · rw [hr1store, e2]
    dsimp only
    rw [Store.get_set]
    exact hskip.1
  · intro x
    rw [hr1store, e2, e1]
    dsimp only
    rw [Store.get_set, hskip.2.1, List.append_nil]
    exact pw_countP_le_one cfg t1 x _ 0 _
  · intro x hx hunsent
    rw [hr1store, e2, e1]
    dsimp only
    rw [Store.get_set, hskip.2.1, List.append_nil]
    have hle := pw_countP_le_one cfg t1 x (chunkList cfg.batchSize
      (series.zip workflowIds)) 0 (store.get cfg.dryRun)
    have hmap : (series.zip workflowIds).map Prod.snd = workflowIds :=
      List.map_snd_zip series workflowIds (le_of_eq hlen.symm)
    have hx' : x ∈ (series.zip workflowIds).map Prod.snd := by
      rw [hmap]
      exact hx
    rcases List.mem_map.mp hx' with ⟨p, hp, hpx⟩
    have hpflat : p ∈ (chunkList cfg.batchSize
        (series.zip workflowIds)).flatten := by
      rw [flatten_chunkList]
      exact hp
    rcases List.mem_flatten.mp hpflat with ⟨w, hw, hpw⟩
    have hunsentp : WorkflowCache.hasBeenSent (store.get cfg.dryRun) p.2
        = false := by
      rw [hpx]
      exact hunsent
    rcases pw_present cfg t1 hdry (chunkList cfg.batchSize
        (series.zip workflowIds)) 0 (store.get cfg.dryRun) hr1err
        w hw p hpw hunsentp with ⟨c, hc, hcx⟩
    have hpos : 0 < (processWindows cfg t1 0 (chunkList cfg.batchSize
        (series.zip workflowIds)) (store.get cfg.dryRun)).calls.countP
        (fun c => (c.map Prod.snd).contains x) := by
      refine List.countP_pos_iff.mpr ⟨c, hc, ?_⟩
      rw [← hpx]
      exact contains_true_iff.mpr hcx
    omega
  · intro x hsent c hc hxin
    rw [hr1store, e2, e1] at hc
    dsimp only at hc
    rw [Store.get_set, hskip.2.1, List.append_nil] at hc
    exact pw_calls_avoid cfg t1 _ 0 _ hsent c hc hxin

/-- Witness for C1 at a concrete input: a successful live run over three
fresh pairs with batch size 2, followed by a second identical run against
the updated store, which makes zero Transport calls and succeeds. -/
theorem C1_idempotence_witness :
    (submitMetrics ⟨false, 2⟩ (fun _ => .ok)
      (submitMetrics ⟨false, 2⟩ (fun _ => .ok) ⟨.ok [], .ok []⟩
        ([1, 2, 3] : List Nat) ["workflow-1", "workflow-2",
          "workflow-3"]).store
      ([1, 2, 3] : List Nat)
      ["workflow-1", "workflow-2", "workflow-3"]).calls = [] ∧
    (submitMetrics ⟨false, 2⟩ (fun _ => .ok)
      (submitMetrics ⟨false, 2⟩ (fun _ => .ok) ⟨.ok [], .ok []⟩
        ([1, 2, 3] : List Nat) ["workflow-1", "workflow-2",
          "workflow-3"]).store
      ([1, 2, 3] : List Nat)
      ["workflow-1", "workflow-2", "workflow-3"]).error = none := by
  have h := C1_idempotence ⟨false, 2⟩ (fun _ => .ok) (fun _ => .ok)
    ⟨.ok [], .ok []⟩ ([1, 2, 3] : List Nat)
    ["workflow-1", "workflow-2", "workflow-3"] rfl (by decide)
  exact ⟨h.1, h.2.1⟩

/-- C2: atomicity on Transport failure.  If a live-mode `submitMetrics`
call ends with a Transport-thrown error, then the failing invocation is the
last one (exactly one audit record per Transport invocation, so no later
window was processed), and the resulting ledger contains exactly the
initially recorded identifiers plus those of the Transport invocations
strictly before the failing one — no identifier of the failing window or
of any subsequent window is added. -/
theorem C2_atomicity_on_failure {α : Type} (cfg : Config)
    (t : Nat → TransportOutcome) (store : Store) (series : List α)
    (workflowIds : List String) (hdry : cfg.dryRun = false)
    (hfail : transportFailed
      (submitMetrics cfg t store series workflowIds).error = true) :
    (submitMetrics cfg t store series workflowIds).calls ≠ [] ∧
    (submitMetrics cfg t store series workflowIds).audits.length =
      (submitMetrics cfg t store series workflowIds).calls.length ∧
    (∀ x : String,
      WorkflowCache.hasBeenSent
        ((submitMetrics cfg t store series workflowIds).store.get
          cfg.dryRun) x = true ↔
      (WorkflowCache.hasBeenSent (store.get cfg.dryRun) x = true ∨
        ∃ c ∈ (submitMetrics cfg t store series
          workflowIds).calls.dropLast, x ∈ c.map Prod.snd)) := by
  have hlen : series.length = workflowIds.length := by
    by_contra hn
    rw [submit_mismatch cfg t store series workflowIds hn] at hfail
    dsimp only at hfail
    simp [transportFailed] at hfail
  have e := submit_eq cfg t store series workflowIds hlen
  rw [e] at hfail
  dsimp only at hfail
  have hchar := pw_fail_char cfg t hdry (chunkList cfg.batchSize
    (series.zip workflowIds)) 0 (store.get cfg.dryRun) hfail
  refine ⟨?_, ?_, ?_⟩
  · rw [e]
    dsimp only
    exact hchar.1
  · rw [e]
    dsimp only
    exact pw_audits_length cfg t hdry _ 0 _
  · intro x
    rw [e]
    dsimp only
    rw [Store.get_set]
    exact hchar.2 x

/-- Witness for C2 at a concrete input: a single-window live call whose
Transport invocation rejects with an `Error` — the failing call was
recorded, audits and calls are in bijection, and the ledger gained
nothing. -/
theorem C2_atomicity_on_failure_witness :
    (submitMetrics ⟨false, 10⟩ (fun _ => .errKnown "API Error")
      ⟨.ok [], .ok []⟩ ([1] : List Nat) ["workflow-1"]).calls ≠ [] ∧
    (submitMetrics ⟨false, 10⟩ (fun _ => .errKnown "API Error")
      ⟨.ok [], .ok []⟩ ([1] : List Nat) ["workflow-1"]).audits.length =
    (submitMetrics ⟨false, 10⟩ (fun _ => .errKnown "API Error")
      ⟨.ok [], .ok []⟩ ([1] : List Nat) ["workflow-1"]).calls.length := by
  have h := C2_atomicity_on_failure ⟨false, 10⟩
    (fun _ => .errKnown "API Error") ⟨.ok [], .ok []⟩ ([1] : List Nat)
    ["workflow-1"] rfl (by decide)
  exact ⟨h.1, h.2.1⟩

/-- C4: batch partitioning.  A live-mode `submitMetrics` over distinct,
not-yet-delivered workflow ids with an all-succeeding Transport pairs
`series[i]` with `workflowIds[i]`, partitions the paired sequence into
consecutive windows of at most `batchSize` in input order, and performs
exactly one Transport invocation per window, whose payload is that window
in original order. -/
theorem C4_batch_partitioning {α : Type} (cfg : Config)
    (t : Nat → TransportOutcome) (store : Store) (series : List α)
    (workflowIds : List String) (hdry : cfg.dryRun = false)
    (hlen : series.length = workflowIds.length)
    (hnd : workflowIds.Nodup) (hok : ∀ j, t j = .ok)
    (hledger : store.live = FileState.ok []) :
    (submitMetrics cfg t store series workflowIds).error = none ∧
    (submitMetrics cfg t store series workflowIds).calls =
      chunkList cfg.batchSize (series.zip workflowIds) := by
  have hf0 : store.get cfg.dryRun = FileState.ok [] := by
    rw [hdry]
    simpa [Store.get] using hledger
  rw [submit_eq cfg t store series workflowIds hlen, hf0]
  dsimp only
  have hndflat : (((chunkList cfg.batchSize
      (series.zip workflowIds)).flatten).map Prod.snd).Nodup := by
    rw [flatten_chunkList,
      List.map_snd_zip series workflowIds (le_of_eq hlen.symm)]
    exact hnd
  have h := pw_calls_winnow cfg t hdry hok (chunkList cfg.batchSize
    (series.zip workflowIds)) 0 [] hndflat
  refine ⟨h.1, ?_⟩
  rw [h.2]
  have hall : ∀ w ∈ chunkList cfg.batchSize (series.zip workflowIds),
      winnow (FileState.ok []) w = some w := by
    intro w hw
    have hne := ne_nil_of_mem_chunkList hw
    have hfe : w.filter (undelivered (FileState.ok [])) = w :=
      List.filter_eq_self.mpr (fun p _ => rfl)
    rw [winnow]
    simp [hfe, List.isEmpty_iff, hne]
  rw [List.filterMap_congr hall, List.filterMap_some]

/-- Witness for C4 at a concrete input: batch size 2 and three fresh pairs
give exactly two Transport invocations with sub-batch sizes 2 and 1 and
values preserved in order. -/
theorem C4_batch_partitioning_witness :
    (submitMetrics ⟨false, 2⟩ (fun _ => .ok) ⟨.ok [], .ok []⟩
      ([15.5, 16.5, 17.5] : List ℚ)
      ["workflow-1", "workflow-2", "workflow-3"]).error = none ∧
    (submitMetrics ⟨false, 2⟩ (fun _ => .ok) ⟨.ok [], .ok []⟩
      ([15.5, 16.5, 17.5] : List ℚ)
      ["workflow-1", "workflow-2", "workflow-3"]).calls =
      chunkList 2 (([15.5, 16.5, 17.5] : List ℚ).zip
        ["workflow-1", "workflow-2", "workflow-3"]) ∧
    ((submitMetrics ⟨false, 2⟩ (fun _ => .ok) ⟨.ok [], .ok []⟩
      ([15.5, 16.5, 17.5] : List ℚ)
      ["workflow-1", "workflow-2", "workflow-3"]).calls.map
        List.length) = [2, 1] := by
  have h := C4_batch_partitioning ⟨false, 2⟩ (fun _ => .ok)
    ⟨.ok [], .ok []⟩ ([15.5, 16.5, 17.5] : List ℚ)
    ["workflow-1", "workflow-2", "workflow-3"] rfl (by decide) (by decide)
    (fun j => rfl) rfl
  refine ⟨h.1, h.2, ?_⟩
  rw [h.2]
  decide

/-- C9: deduplication is only against the durable ledger, never within the
in-flight call — when the same not-yet-delivered identifier occupies two
positions of the first batching window, both of its paired series entries
pass the filter and are part of that window's Transport payload, so the
identifier's measurement is submitted twice in a single call. -/
theorem C9_in_window_duplicate {α : Type} (cfg : Config)
    (t : Nat → TransportOutcome) (store : Store) (series : List α)
    (workflowIds : List String) (i j : Nat) (x : String)
    (hdry : cfg.dryRun = false)
    (hlen : series.length = workflowIds.length)
    (hilen : i < workflowIds.length) (hjlen : j < workflowIds.length)
    (hij : i < j) (hjb : j < cfg.batchSize)
    (hxi : workflowIds.get ⟨i, hilen⟩ = x)
    (hxj : workflowIds.get ⟨j, hjlen⟩ = x)
    (hunsent : WorkflowCache.hasBeenSent store.live x = false) :
    2 ≤ ((submitMetrics cfg t store series
      workflowIds).calls.headD []).countP (fun p => p.2 == x) := by
  have hf0 : store.get cfg.dryRun = store.live := by
    rw [hdry]
    rfl
  have hplen : (series.zip workflowIds).length = workflowIds.length := by
    rw [List.length_zip]
    omega
  have hpne : series.zip workflowIds ≠ [] := by
    intro h
    rw [h] at hplen
    simp at hplen
    omega
  have hbs : 1 ≤ cfg.batchSize := by omega
  rw [submit_eq cfg t store series workflowIds hlen, hf0]
  dsimp only
  rw [chunkList_eq_take_cons hbs hpne]
  have hwl : ((series.zip workflowIds).take cfg.batchSize).length =
      min cfg.batchSize (series.zip workflowIds).length :=
    List.length_take ..
  have hi' : i < ((series.zip workflowIds).take cfg.batchSize).length := by
    omega
  have hj' : j < ((series.zip workflowIds).take cfg.batchSize).length := by
    omega
  refine pw_window_dup cfg t hdry 0 _ _ store.live i j x hi' hj' hij
    ?_ ?_ hunsent
  · rw [List.get_eq_getElem]
    have h1 : (((series.zip workflowIds).take cfg.batchSize))[i] =
        (series.zip workflowIds)[i] := List.getElem_take ..
    rw [h1]
    have h2 : (series.zip workflowIds)[i] =
        (series[i], workflowIds[i]) := List.getElem_zip ..
    rw [h2]
    rw [List.get_eq_getElem] at hxi
    simpa using hxi
  · rw [List.get_eq_getElem]
    have h1 : (((series.zip workflowIds).take cfg.batchSize))[j] =
        (series.zip workflowIds)[j] := List.getElem_take ..
    rw [h1]
    have h2 : (series.zip workflowIds)[j] =
        (series[j], workflowIds[j]) := List.getElem_zip ..
    rw [h2]
    rw [List.get_eq_getElem] at hxj
    simpa using hxj

/-- Witness for C9 at a concrete input: the identifier at positions 0 and 1
of the first (and only) window is fresh, and its two series entries are
both in the single Transport payload. -/
theorem C9_in_window_duplicate_witness :
    2 ≤ ((submitMetrics ⟨false, 5⟩ (fun _ => .ok) ⟨.ok [], .ok []⟩
      ([1, 2, 3] : List Nat)
      ["workflow-1", "workflow-1", "workflow-2"]).calls.headD []).countP
      (fun p => p.2 == "workflow-1") :=
  C9_in_window_duplicate ⟨false, 5⟩ (fun _ => .ok) ⟨.ok [], .ok []⟩
    ([1, 2, 3] : List Nat) ["workflow-1", "workflow-1", "workflow-2"]
    0 1 "workflow-1" rfl (by decide) (by decide) (by decide) (by decide)
    (by decide) (by decide) (by decide) (by decide)

/-- C8: the two batching strategies in the source are not equivalent.  The
pairing-then-filtering variant always submits exactly the pairs whose
identifier is undelivered (in original order), while on an input whose
already-delivered identifier sits at a non-contiguous (middle) position the
positional-slice variant submits a different set of metric points: with
series `[15, 16, 17]`, ids `workflow-1..3`, `workflow-2` already delivered
and batch size 2, the slice variant sends the single payload `[15, 16]`
(including delivered `workflow-2`'s point and dropping `workflow-3`'s),
whereas the pairing variant sends `[15]` and `[17]`. -/
theorem C8_strategy_divergence {α : Type} (cfg : Config)
    (t : Nat → TransportOutcome) (store : Store) (series : List α)
    (workflowIds : List String) (s : List String)
    (hdry : cfg.dryRun = false)
    (hlen : series.length = workflowIds.length)
    (hnd : workflowIds.Nodup) (hok : ∀ j, t j = .ok)
    (hledger : store.live = FileState.ok s) :
    (submitMetrics cfg t store series workflowIds).calls.flatten =
      (series.zip workflowIds).filter
        (undelivered (FileState.ok s)) ∧
    (submitMetricsSlice ⟨false, 2⟩ (fun _ => .ok)
      ⟨.ok ["workflow-2"], .ok []⟩ ([15, 16, 17] : List Nat)
      ["workflow-1", "workflow-2", "workflow-3"]).calls = [[15, 16]] ∧
    ((submitMetrics ⟨false, 2⟩ (fun _ => .ok)
      ⟨.ok ["workflow-2"], .ok []⟩ ([15, 16, 17] : List Nat)
      ["workflow-1", "workflow-2", "workflow-3"]).calls.map
        (List.map Prod.fst)) = [[15], [17]] ∧
    (submitMetricsSlice ⟨false, 2⟩ (fun _ => .ok)
      ⟨.ok ["workflow-2"], .ok []⟩ ([15, 16, 17] : List Nat)
      ["workflow-1", "workflow-2", "workflow-3"]).calls.flatten ≠
    ((submitMetrics ⟨false, 2⟩ (fun _ => .ok)
      ⟨.ok ["workflow-2"], .ok []⟩ ([15, 16, 17] : List Nat)
      ["workflow-1", "workflow-2", "workflow-3"]).calls.map
        (List.map Prod.fst)).flatten := by
  refine ⟨?_, by decide, by decide, by decide⟩
  have hf0 : store.get cfg.dryRun = FileState.ok s := by
    rw [hdry]
    simpa [Store.get] using hledger
  rw [submit_eq cfg t store series workflowIds hlen, hf0]
  dsimp only
  have hndflat : (((chunkList cfg.batchSize
      (series.zip workflowIds)).flatten).map Prod.snd).Nodup := by
    rw [flatten_chunkList,
      List.map_snd_zip series workflowIds (le_of_eq hlen.symm)]
    exact hnd
  have h := pw_calls_winnow cfg t hdry hok (chunkList cfg.batchSize
    (series.zip workflowIds)) 0 s hndflat
  rw [h.2, flatten_filterMap_winnow, flatten_chunkList]

/-- Witness for C8's general conjunct at a concrete input: the pairing
variant on the divergence input submits exactly the pairs with undelivered
identifiers. -/
theorem C8_strategy_divergence_witness :
    (submitMetrics ⟨false, 2⟩ (fun _ => .ok)
      ⟨.ok ["workflow-2"], .ok []⟩ ([15, 16, 17] : List Nat)
      ["workflow-1", "workflow-2", "workflow-3"]).calls.flatten =
      (([15, 16, 17] : List Nat).zip
        ["workflow-1", "workflow-2", "workflow-3"]).filter
        (undelivered (FileState.ok ["workflow-2"])) :=
  (C8_strategy_divergence ⟨false, 2⟩ (fun _ => .ok)
    ⟨.ok ["workflow-2"], .ok []⟩ ([15, 16, 17] : List Nat)
    ["workflow-1", "workflow-2", "workflow-3"] ["workflow-2"] rfl
    (by decide) (by decide) (fun j => rfl) rfl).1

end CCIDatadog
